import Mathlib

/-!
Shallow embedding of `cmlutils/project_entrypoint.py`.

Each CLI entrypoint (`project_export_cmd`, `project_import_cmd`,
`populate_engine_runtimes_mapping`) is modelled as a function from an
environment — the results that the collaborator objects
(`ProjectExporter`, `ProjectImporter`, validators, the filesystem) return
at each call site — to a trace of the calls the entrypoint makes, paired
with the operation's outcome.  A collaborator call that raises a Python
exception is modelled by an `Except.error` result in the environment; the
bare `except:` handlers at the end of each command are modelled
explicitly: they log, call `terminate_ssh_session()` on the importer or
exporter variable if it has been assigned, and `exit()`.

Events are recorded at the moment a call is initiated, so a call that
raises still contributes its event to the trace.
-/

/-- Mirrors `cmlutils.script_models.ValidationResponseStatus`. -/
inductive ValidationResponseStatus
  | PASSED
  | FAILED
deriving DecidableEq, Repr

/-- Mirrors the validation response object: a status plus a message. -/
structure ValidationResponse where
  validation_status : ValidationResponseStatus
  validation_msg : String
deriving DecidableEq, Repr

/-- Project metadata: the JSON document read by `read_json_file`, modelled
as an association list with unique keys (a Python `dict` of strings). -/
abbrev Metadata := List (String × String)

/-- Python `k in d`. -/
def Metadata.member (m : Metadata) (k : String) : Bool :=
  m.any (fun p => p.1 == k)

/-- Python `d.get(k)` / `d[k]` lookup (the caller decides whether a missing
key raises `KeyError`). -/
def Metadata.find (m : Metadata) (k : String) : Option String :=
  (List.find? (fun p => p.1 == k) m).map (fun p => p.2)

/-- Python `d.get(k, dflt)`. -/
def Metadata.getD (m : Metadata) (k d : String) : String :=
  (Metadata.find m k).getD d

/-- Python `d.pop(k, None)`: the document with key `k` removed. -/
def Metadata.pop (m : Metadata) (k : String) : Metadata :=
  m.filter (fun p => p.1 != k)

/-- The observable calls the entrypoints make on their collaborators. -/
inductive Event
  | validate (i : Nat) (r : ValidationResponse)
  | getCreator
  | checkExist (name : String)
  | createProject (m : Metadata)
  | warnExists (name : String)
  | constructImporter (username : String)
  | transfer
  | terminate
  | patchEngine (m : Metadata)
  | importMeta (projectId : String)
  | dumpMetadata
deriving DecidableEq, Repr

/-- How the command finished: fell off the end of the `try` block, or hit
the bare `except:` handler (which logs the exception and calls `exit()`). -/
inductive Outcome
  | success
  | exited (err : String)
deriving DecidableEq, Repr

/-- The trace of collaborator calls plus the outcome of one command run. -/
structure RunResult where
  trace : List Event
  outcome : Outcome
deriving DecidableEq, Repr

/-- The `for v in validators: ...` loop shared by export and import
(numbering validators from `i`): evaluates each `v.validate()` in order and
raises `RuntimeError("validation error", msg)` at the first FAILED
response.  Returns the validate events emitted and the message of the
raised error, if any. -/
def runValidatorsPure : Nat → List ValidationResponse → List Event × Option String
  | _, [] => ([], none)
  | i, r :: rest =>
    if r.validation_status = ValidationResponseStatus.FAILED then
      ([Event.validate i r], some r.validation_msg)
    else
      let p := runValidatorsPure (i + 1) rest
      (Event.validate i r :: p.1, p.2)

/-- Environment for `project_export_cmd`: the results of each collaborator
call, in program order. -/
structure ExportEnv where
  /-- `pobj.get_creator_username()`: `(creator_username, project_slug,
  owner_type)`, where the creator may be `None`; or a raised exception. -/
  creatorResult : Except String (Option String × String × String)
  /-- The responses of the export validators, in chain order. -/
  validators : List ValidationResponse
  /-- `pexport.transfer_project_files()`. -/
  transferResult : Except String Unit
  /-- `pexport.dump_project_and_related_metadata()`. -/
  dumpResult : Except String Unit

/-- `project_export_cmd` (lines 86-165 of `project_entrypoint.py`): resolve
the creator, run the export validators, construct `pexport`, transfer
files, then dump metadata.  The bare `except:` handler calls
`pexport.terminate_ssh_session()` only when `pexport` has been assigned —
which happens just before the transfer — and then exits. -/
def project_export_cmd (env : ExportEnv) : RunResult :=
  let evs0 := [Event.getCreator]
  match env.creatorResult with
  | .error e => ⟨evs0, .exited e⟩
  | .ok (creatorOpt, _slug, _ownerType) =>
    match creatorOpt with
    | none => ⟨evs0, .exited "Validation error"⟩
    | some _creator =>
      let v := runValidatorsPure 0 env.validators
      match v.2 with
      | some msg => ⟨evs0 ++ v.1, .exited msg⟩
      | none =>
        -- `pexport = ProjectExporter(...)` is assigned here, so from this
        -- point the handler will call terminate.
        let evs1 := evs0 ++ v.1 ++ [Event.transfer]
        match env.transferResult with
        | .error e => ⟨evs1 ++ [Event.terminate], .exited e⟩
        | .ok _ =>
          let evs2 := evs1 ++ [Event.dumpMetadata]
          match env.dumpResult with
          | .error e => ⟨evs2 ++ [Event.terminate], .exited e⟩
          | .ok _ => ⟨evs2, .success⟩

/-- Environment for `project_import_cmd`. -/
structure ImportEnv where
  /-- The `--project_name` CLI option (used for config/log paths, not for
  the destination existence check). -/
  project_name : String
  /-- `username` from the config file. -/
  username : String
  /-- The responses of the import validators, in chain order. -/
  validators : List ValidationResponse
  /-- `read_json_file(project_filepath)`: the metadata document, or a
  raised exception (missing or malformed file). -/
  metadataResult : Except String Metadata
  /-- `p.check_project_exist(name)`: the existing project id or `None`. -/
  checkExistResult : Except String (Option String)
  /-- `p.create_project_v2(...)`: the new project id. -/
  createResult : Except String String
  /-- `p.get_creator_username()`: `(creator_username, project_slug)`. -/
  getCreatorResult : Except String (String × String)
  /-- `pimport.transfer_project()`. -/
  transferResult : Except String Unit
  /-- `pimport.convert_project_to_engine_based(...)`. -/
  patchResult : Except String Unit
  /-- `pimport.import_metadata(project_id)`. -/
  importMetaResult : Except String Unit

/-- The dict literal `{"default_project_engine_type": "legacy_engine"}`
passed to `convert_project_to_engine_based`. -/
def legacyPatch : Metadata := [("default_project_engine_type", "legacy_engine")]

/-- Lines 247-248: `if "team_name" in project_metadata: username =
project_metadata["team_name"]` — the username the transferring
`ProjectImporter` is constructed with. -/
def importUsername (env : ImportEnv) (pm : Metadata) : String :=
  if Metadata.member pm "team_name" then Metadata.getD pm "team_name" ""
  else env.username

/-- The tail of `project_import_cmd` from `get_creator_username()` on
(lines 249-273): construct `pimport` (after which the `except:` handler
calls `pimport.terminate_ssh_session()`), transfer files, terminate the
session, patch the legacy engine type when the marker was present, and do
the metadata import.  `evs` is the trace accumulated so far and `pid` the
destination project id. -/
def importAfterCreate (env : ImportEnv) (pm : Metadata) (uses_engine : Bool)
    (evs : List Event) (pid : String) : RunResult :=
  let evs1 := evs ++ [Event.getCreator]
  match env.getCreatorResult with
  | .error e => ⟨evs1, .exited e⟩
  | .ok _ =>
    -- `pimport = ProjectImporter(...)` is assigned here.
    let evs2 := evs1 ++ [Event.constructImporter (importUsername env pm)] ++ [Event.transfer]
    match env.transferResult with
    | .error e => ⟨evs2 ++ [Event.terminate], .exited e⟩
    | .ok _ =>
      let evs3 := evs2 ++ [Event.terminate]
      let evs4 := evs3 ++
        (if uses_engine then [Event.patchEngine legacyPatch] else [])
      match (if uses_engine then env.patchResult else Except.ok ()) with
      | .error e => ⟨evs4 ++ [Event.terminate], .exited e⟩
      | .ok _ =>
        let evs5 := evs4 ++ [Event.importMeta pid]
        match env.importMetaResult with
        | .error e => ⟨evs5 ++ [Event.terminate], .exited e⟩
        | .ok _ => ⟨evs5, .success⟩

/-- `project_import_cmd` (lines 175-273 of `project_entrypoint.py`): run
the import validators, read the metadata document, record and strip the
`default_project_engine_type` marker, look up the destination project by
the metadata's `"name"` (a missing key raises `KeyError` before the lookup
is made), create it only when absent (otherwise warn), then hand over to
`importAfterCreate`.  The bare `except:` handler calls
`pimport.terminate_ssh_session()` only when `pimport` has been assigned. -/
def project_import_cmd (env : ImportEnv) : RunResult :=
  let v := runValidatorsPure 0 env.validators
  match v.2 with
  | some msg => ⟨v.1, .exited msg⟩
  | none =>
    match env.metadataResult with
    | .error e => ⟨v.1, .exited e⟩
    | .ok pm0 =>
      let uses_engine := Metadata.member pm0 "default_project_engine_type"
      let pm := Metadata.pop pm0 "default_project_engine_type"
      match Metadata.find pm "name" with
      | none => ⟨v.1, .exited "KeyError: name"⟩
      | some name =>
        let evs1 := v.1 ++ [Event.checkExist name]
        match env.checkExistResult with
        | .error e => ⟨evs1, .exited e⟩
        | .ok idOpt =>
          match idOpt with
          | none =>
            let evs2 := evs1 ++ [Event.createProject pm]
            match env.createResult with
            | .error e => ⟨evs2, .exited e⟩
            | .ok pid => importAfterCreate env pm uses_engine evs2 pid
          | some pid =>
            importAfterCreate env pm uses_engine
              (evs1 ++ [Event.warnExists (Metadata.getD pm "name" "")]) pid

/-- One page result of `p.get_all_runtimes_v2(page_token)`: `none` models a
falsy response (`if not response`), `some (runtimes, next_page_token)` a
response with its `"runtimes"` list and `"next_page_token"`. -/
abbrev PageResponse := Option (List String × String)

/-- Observable actions of `populate_engine_runtimes_mapping`. -/
inductive CatEvent
  | fetch (pageToken : String)
  | write (runtimes : List String)
deriving DecidableEq, Repr

/-- The `while len(page_token) > 0:` loop (lines 323-328): `pages` are the
responses the API returns to the successive calls (after exhaustion the
response is falsy), `page_token` the current token and `runtimes` the list
aggregated so far.  Returns the fetch events and the final aggregation. -/
def runCatalogLoop (pages : List PageResponse) (page_token : String)
    (runtimes : List String) : List CatEvent × List String :=
  match pages with
  | [] =>
    if page_token.length > 0 then ([CatEvent.fetch page_token], runtimes)
    else ([], runtimes)
  | none :: _ =>
    if page_token.length > 0 then ([CatEvent.fetch page_token], runtimes)
    else ([], runtimes)
  | some (rs, tok) :: rest =>
    if page_token.length > 0 then
      let r := runCatalogLoop rest tok (runtimes ++ rs)
      (CatEvent.fetch page_token :: r.1, r.2)
    else ([], runtimes)

/-- `populate_engine_runtimes_mapping` (lines 284-355): fetch the first
page with an empty token; a falsy response means log-and-return.  Then loop
while the next-page token is non-empty, breaking on a falsy response.  If
any runtimes were aggregated, write them (as the legacy-engine/runtime map
produced by `parse_runtimes_v2`, which is outside this file's scope, so the
write event carries the aggregated runtimes) to the fixed
`~/.cmlutils/legacy_engine_runtime_constants.json` path; a write failure
(`writeOk = false`) is caught and logged, never re-raised.  Returns the
trace and the content written (`none` when no write happened). -/
def populate_engine_runtimes_mapping (pages : List PageResponse)
    (writeOk : Bool) : List CatEvent × Option (List String) :=
  match pages with
  | [] => ([CatEvent.fetch ""], none)
  | none :: _ => ([CatEvent.fetch ""], none)
  | some (rs, tok) :: rest =>
    let loop := runCatalogLoop rest tok rs
    let evs := CatEvent.fetch "" :: loop.1
    let runtimes := loop.2
    if runtimes.length > 0 then
      if writeOk then (evs ++ [CatEvent.write runtimes], some runtimes)
      else (evs, none)
    else (evs, none)

/-- The validate events the validator loop emits for a fully-evaluated
chain, numbering the validators from `k`. -/
def validateEvents : Nat → List ValidationResponse → List Event
  | _, [] => []
  | k, r :: rest => Event.validate k r :: validateEvents (k + 1) rest

/-- Number of `terminate_ssh_session()` invocations recorded in a trace. -/
def terminateCount : List Event → Nat
  | [] => 0
  | Event.terminate :: rest => terminateCount rest + 1
  | _ :: rest => terminateCount rest

theorem runValidatorsPure_all_passed (k : Nat) (vs : List ValidationResponse)
    (h : ∀ x ∈ vs, x.validation_status = ValidationResponseStatus.PASSED) :
    runValidatorsPure k vs = (validateEvents k vs, none) := by
  induction vs generalizing k with
  | nil => rfl
  | cons r rest ih =>
    have hr := h r (List.mem_cons_self _ _)
    simp [runValidatorsPure, validateEvents, hr,
      ih (k + 1) (fun x hx => h x (List.mem_cons_of_mem _ hx))]

theorem runValidatorsPure_short_circuit (pre post : List ValidationResponse)
    (r : ValidationResponse) (k : Nat)
    (hpre : ∀ x ∈ pre, x.validation_status = ValidationResponseStatus.PASSED)
    (hr : r.validation_status = ValidationResponseStatus.FAILED) :
    runValidatorsPure k (pre ++ r :: post) =
      (validateEvents k pre ++ [Event.validate (k + pre.length) r],
        some r.validation_msg) := by
  induction pre generalizing k with
  | nil => simp [runValidatorsPure, hr, validateEvents]
  | cons x xs ih =>
    have hx := hpre x (List.mem_cons_self _ _)
    have hxs := ih (k + 1) (fun y hy => hpre y (List.mem_cons_of_mem _ hy))
    simp [runValidatorsPure, hx, validateEvents, hxs]
    omega

theorem mem_validateEvents (k : Nat) (vs : List ValidationResponse) (e : Event)
    (he : e ∈ validateEvents k vs) :
    ∃ j r, e = Event.validate j r ∧ k ≤ j ∧ j < k + vs.length := by
  induction vs generalizing k with
  | nil => simp [validateEvents] at he
  | cons x xs ih =>
    simp only [validateEvents, List.mem_cons] at he
    rcases he with he | he
    · exact ⟨k, x, he, Nat.le_refl _, by simp⟩
    · obtain ⟨j, r, hjr, hk, hlt⟩ := ih (k + 1) he
      exact ⟨j, r, hjr, by omega, by simp; omega⟩

theorem mem_runValidatorsPure_fst (k : Nat) (vs : List ValidationResponse)
    (e : Event) (he : e ∈ (runValidatorsPure k vs).1) :
    ∃ j r, e = Event.validate j r ∧ k ≤ j ∧ j < k + vs.length := by
  induction vs generalizing k with
  | nil => simp [runValidatorsPure] at he
  | cons x xs ih =>
    by_cases hx : x.validation_status = ValidationResponseStatus.FAILED
    · simp [runValidatorsPure, hx] at he
      exact ⟨k, x, he, Nat.le_refl _, by simp⟩
    · simp only [runValidatorsPure, if_neg hx, List.mem_cons] at he
      rcases he with he | he
      · exact ⟨k, x, he, Nat.le_refl _, by simp⟩
      · obtain ⟨j, r, hjr, hk, hlt⟩ := ih (k + 1) he
        exact ⟨j, r, hjr, by omega, by simp; omega⟩

theorem terminateCount_eq_zero (l : List Event) (h : Event.terminate ∉ l) :
    terminateCount l = 0 := by
  induction l with
  | nil => rfl
  | cons e rest ih => cases e <;> simp_all [terminateCount]

theorem terminateCount_append (l1 l2 : List Event) :
    terminateCount (l1 ++ l2) = terminateCount l1 + terminateCount l2 := by
  induction l1 with
  | nil => simp [terminateCount]
  | cons e rest ih =>
    cases e <;>
      simp [terminateCount, ih, Nat.add_assoc, Nat.add_comm, Nat.add_left_comm]

theorem terminateCount_runValidatorsPure (k : Nat)
    (vs : List ValidationResponse) :
    terminateCount (runValidatorsPure k vs).1 = 0 := by
  apply terminateCount_eq_zero
  intro he
  obtain ⟨j, r, hx, -, -⟩ := mem_runValidatorsPure_fst k vs _ he
  exact Event.noConfusion hx

/-- A concrete all-success import environment, reused by witnesses: the
destination project already exists. -/
def sampleImportEnv : ImportEnv where
  project_name := "cliproj"
  username := "alice"
  validators := []
  metadataResult := Except.ok [("name", "proj")]
  checkExistResult := Except.ok (some "id1")
  createResult := Except.ok "newid"
  getCreatorResult := Except.ok ("alice", "proj")
  transferResult := Except.ok ()
  patchResult := Except.ok ()
  importMetaResult := Except.ok ()

/-- A concrete all-success export environment, reused by witnesses. -/
def sampleExportEnv : ExportEnv where
  creatorResult := Except.ok (some "alice", "proj", "user")
  validators := []
  transferResult := Except.ok ()
  dumpResult := Except.ok ()

/-- C3: in both the export and the import chain, when validators `0..i-1`
pass and validator `i` fails, the run stops at validator `i`: the trace is
exactly the validate events up to and including `i` (plus the initial
creator lookup for export), the outcome is an abort carrying validator
`i`'s message, no file transfer is initiated, and no validator with index
above `i` is evaluated. -/
theorem C3_validator_short_circuit
    (pre post : List ValidationResponse) (r : ValidationResponse)
    (hpre : ∀ x ∈ pre, x.validation_status = ValidationResponseStatus.PASSED)
    (hr : r.validation_status = ValidationResponseStatus.FAILED)
    (ienv : ImportEnv) (eenv : ExportEnv) (c s t : String)
    (hiv : ienv.validators = pre ++ r :: post)
    (hev : eenv.validators = pre ++ r :: post)
    (hcr : eenv.creatorResult = Except.ok (some c, s, t)) :
    project_import_cmd ienv =
      ⟨validateEvents 0 pre ++ [Event.validate pre.length r],
        Outcome.exited r.validation_msg⟩ ∧
    project_export_cmd eenv =
      ⟨Event.getCreator :: (validateEvents 0 pre ++ [Event.validate pre.length r]),
        Outcome.exited r.validation_msg⟩ ∧
    Event.transfer ∉ (project_import_cmd ienv).trace ∧
    Event.transfer ∉ (project_export_cmd eenv).trace ∧
    (∀ j x, Event.validate j x ∈ (project_import_cmd ienv).trace → j ≤ pre.length) := by
  have hrun := runValidatorsPure_short_circuit pre post r 0 hpre hr
  have him : project_import_cmd ienv =
      ⟨validateEvents 0 pre ++ [Event.validate pre.length r],
        Outcome.exited r.validation_msg⟩ := by
    simp [project_import_cmd, hiv, hrun]
  have hex : project_export_cmd eenv =
      ⟨Event.getCreator :: (validateEvents 0 pre ++ [Event.validate pre.length r]),
        Outcome.exited r.validation_msg⟩ := by
    simp [project_export_cmd, hev, hcr, hrun]
  refine ⟨him, hex, ?_, ?_, ?_⟩
  · rw [him]
    intro hmem
    rcases List.mem_append.mp hmem with hmem | hmem
    · obtain ⟨j, x, hx, -, -⟩ := mem_validateEvents 0 pre _ hmem
      exact Event.noConfusion hx
    · exact Event.noConfusion (List.mem_singleton.mp hmem)
  · rw [hex]
    intro hmem
    rcases List.mem_cons.mp hmem with hmem | hmem
    · exact Event.noConfusion hmem
    · rcases List.mem_append.mp hmem with hmem | hmem
      · obtain ⟨j, x, hx, -, -⟩ := mem_validateEvents 0 pre _ hmem
        exact Event.noConfusion hx
      · exact Event.noConfusion (List.mem_singleton.mp hmem)
  · rw [him]
    intro j x hmem
    rcases List.mem_append.mp hmem with hmem | hmem
    · obtain ⟨j', x', hx, -, hlt⟩ := mem_validateEvents 0 pre _ hmem
      injection hx with h1 h2
      omega
    · injection List.mem_singleton.mp hmem with h1 h2
      omega

/-- Witness for C3 at a concrete three-validator chain whose second
validator fails. -/
theorem C3_validator_short_circuit_witness :
    project_import_cmd { sampleImportEnv with
        validators := [⟨ValidationResponseStatus.PASSED, "ok"⟩,
          ⟨ValidationResponseStatus.FAILED, "disk full"⟩,
          ⟨ValidationResponseStatus.PASSED, "later"⟩] } =
      ⟨[Event.validate 0 ⟨ValidationResponseStatus.PASSED, "ok"⟩,
          Event.validate 1 ⟨ValidationResponseStatus.FAILED, "disk full"⟩],
        Outcome.exited "disk full"⟩ ∧
    project_export_cmd { sampleExportEnv with
        validators := [⟨ValidationResponseStatus.PASSED, "ok"⟩,
          ⟨ValidationResponseStatus.FAILED, "disk full"⟩,
          ⟨ValidationResponseStatus.PASSED, "later"⟩] } =
      ⟨[Event.getCreator,
          Event.validate 0 ⟨ValidationResponseStatus.PASSED, "ok"⟩,
          Event.validate 1 ⟨ValidationResponseStatus.FAILED, "disk full"⟩],
        Outcome.exited "disk full"⟩ := by
  have h := C3_validator_short_circuit
    [⟨ValidationResponseStatus.PASSED, "ok"⟩]
    [⟨ValidationResponseStatus.PASSED, "later"⟩]
    ⟨ValidationResponseStatus.FAILED, "disk full"⟩
    (by decide) (by decide)
    { sampleImportEnv with
        validators := [⟨ValidationResponseStatus.PASSED, "ok"⟩,
          ⟨ValidationResponseStatus.FAILED, "disk full"⟩,
          ⟨ValidationResponseStatus.PASSED, "later"⟩] }
    { sampleExportEnv with
        validators := [⟨ValidationResponseStatus.PASSED, "ok"⟩,
          ⟨ValidationResponseStatus.FAILED, "disk full"⟩,
          ⟨ValidationResponseStatus.PASSED, "later"⟩] }
    "alice" "proj" "user" rfl rfl rfl
  exact ⟨h.1, h.2.1⟩

/-- Case analysis of the tail of the import command: every possible
combination of collaborator results, with the exact trace and outcome. -/
theorem importAfterCreate_shape (env : ImportEnv) (pm : Metadata) (ue : Bool)
    (evs : List Event) (pid : String) :
    (∃ e, env.getCreatorResult = Except.error e ∧
      importAfterCreate env pm ue evs pid =
        ⟨evs ++ [Event.getCreator], Outcome.exited e⟩) ∨
    (∃ e, env.transferResult = Except.error e ∧
      importAfterCreate env pm ue evs pid =
        ⟨evs ++ [Event.getCreator, Event.constructImporter (importUsername env pm),
          Event.transfer, Event.terminate], Outcome.exited e⟩) ∨
    (∃ e, ue = true ∧ env.transferResult = Except.ok () ∧
      env.patchResult = Except.error e ∧
      importAfterCreate env pm ue evs pid =
        ⟨evs ++ [Event.getCreator, Event.constructImporter (importUsername env pm),
          Event.transfer, Event.terminate, Event.patchEngine legacyPatch,
          Event.terminate], Outcome.exited e⟩) ∨
    (∃ e, env.transferResult = Except.ok () ∧
      (ue = true → env.patchResult = Except.ok ()) ∧
      env.importMetaResult = Except.error e ∧
      importAfterCreate env pm ue evs pid =
        ⟨evs ++ [Event.getCreator, Event.constructImporter (importUsername env pm),
          Event.transfer, Event.terminate] ++
          (if ue then [Event.patchEngine legacyPatch] else []) ++
          [Event.importMeta pid, Event.terminate], Outcome.exited e⟩) ∨
    (env.transferResult = Except.ok () ∧
      (ue = true → env.patchResult = Except.ok ()) ∧
      env.importMetaResult = Except.ok () ∧
      importAfterCreate env pm ue evs pid =
        ⟨evs ++ [Event.getCreator, Event.constructImporter (importUsername env pm),
          Event.transfer, Event.terminate] ++
          (if ue then [Event.patchEngine legacyPatch] else []) ++
          [Event.importMeta pid], Outcome.success⟩) := by
  cases hg : env.getCreatorResult with
  | error e =>
    exact Or.inl ⟨e, rfl, by simp [importAfterCreate, hg]⟩
  | ok cu =>
    cases ht : env.transferResult with
    | error e =>
      refine Or.inr (Or.inl ⟨e, rfl, ?_⟩)
      simp [importAfterCreate, hg, ht]
    | ok u =>
      cases u
      cases ue with
      | true =>
        cases hp : env.patchResult with
        | error e =>
          refine Or.inr (Or.inr (Or.inl ⟨e, rfl, rfl, rfl, ?_⟩))
          simp [importAfterCreate, hg, ht, hp]
        | ok u' =>
          cases u'
          cases hi : env.importMetaResult with
          | error e =>
            refine Or.inr (Or.inr (Or.inr (Or.inl ⟨e, rfl, fun _ => rfl, rfl, ?_⟩)))
            simp [importAfterCreate, hg, ht, hp, hi]
          | ok u'' =>
            cases u''
            refine Or.inr (Or.inr (Or.inr (Or.inr ⟨rfl, fun _ => rfl, rfl, ?_⟩)))
            simp [importAfterCreate, hg, ht, hp, hi]
      | false =>
        cases hi : env.importMetaResult with
        | error e =>
          refine Or.inr (Or.inr (Or.inr (Or.inl ⟨e, rfl, fun h => absurd h (by simp), rfl, ?_⟩)))
          simp [importAfterCreate, hg, ht, hi]
        | ok u'' =>
          cases u''
          refine Or.inr (Or.inr (Or.inr (Or.inr ⟨rfl, fun h => absurd h (by simp), rfl, ?_⟩)))
          simp [importAfterCreate, hg, ht, hi]

/-- Case analysis of the whole import command: every exit path, with the
exact trace (or the `importAfterCreate` call it reduces to). -/
theorem project_import_cmd_shape (env : ImportEnv) :
    (∃ msg, (runValidatorsPure 0 env.validators).2 = some msg ∧
      project_import_cmd env =
        ⟨(runValidatorsPure 0 env.validators).1, Outcome.exited msg⟩) ∨
    ((runValidatorsPure 0 env.validators).2 = none ∧
      ((∃ e, env.metadataResult = Except.error e ∧
        project_import_cmd env =
          ⟨(runValidatorsPure 0 env.validators).1, Outcome.exited e⟩) ∨
      (∃ pm0, env.metadataResult = Except.ok pm0 ∧
        ((Metadata.find (Metadata.pop pm0 "default_project_engine_type") "name" = none ∧
          project_import_cmd env =
            ⟨(runValidatorsPure 0 env.validators).1, Outcome.exited "KeyError: name"⟩) ∨
        (∃ name, Metadata.find (Metadata.pop pm0 "default_project_engine_type") "name" = some name ∧
          ((∃ e, env.checkExistResult = Except.error e ∧
            project_import_cmd env =
              ⟨(runValidatorsPure 0 env.validators).1 ++ [Event.checkExist name],
                Outcome.exited e⟩) ∨
          (env.checkExistResult = Except.ok none ∧
            ((∃ e, env.createResult = Except.error e ∧
              project_import_cmd env =
                ⟨(runValidatorsPure 0 env.validators).1 ++
                  [Event.checkExist name,
                    Event.createProject (Metadata.pop pm0 "default_project_engine_type")],
                  Outcome.exited e⟩) ∨
            (∃ pid, env.createResult = Except.ok pid ∧
              project_import_cmd env =
                importAfterCreate env (Metadata.pop pm0 "default_project_engine_type")
                  (Metadata.member pm0 "default_project_engine_type")
                  ((runValidatorsPure 0 env.validators).1 ++
                    [Event.checkExist name,
                      Event.createProject (Metadata.pop pm0 "default_project_engine_type")])
                  pid))) ∨
          (∃ pid, env.checkExistResult = Except.ok (some pid) ∧
            project_import_cmd env =
              importAfterCreate env (Metadata.pop pm0 "default_project_engine_type")
                (Metadata.member pm0 "default_project_engine_type")
                ((runValidatorsPure 0 env.validators).1 ++
                  [Event.checkExist name,
                    Event.warnExists (Metadata.getD (Metadata.pop pm0 "default_project_engine_type") "name" "")])
                pid))))))) := by
  cases hv : (runValidatorsPure 0 env.validators).2 with
  | some msg =>
    exact Or.inl ⟨msg, rfl, by simp [project_import_cmd, hv]⟩
  | none =>
    refine Or.inr ⟨rfl, ?_⟩
    cases hm : env.metadataResult with
    | error e =>
      exact Or.inl ⟨e, rfl, by simp [project_import_cmd, hv, hm]⟩
    | ok pm0 =>
      refine Or.inr ⟨pm0, rfl, ?_⟩
      cases hn : Metadata.find (Metadata.pop pm0 "default_project_engine_type") "name" with
      | none =>
        exact Or.inl ⟨rfl, by simp [project_import_cmd, hv, hm, hn]⟩
      | some name =>
        refine Or.inr ⟨name, rfl, ?_⟩
        cases hc : env.checkExistResult with
        | error e =>
          exact Or.inl ⟨e, rfl, by simp [project_import_cmd, hv, hm, hn, hc]⟩
        | ok idOpt =>
          cases idOpt with
          | none =>
            refine Or.inr (Or.inl ⟨rfl, ?_⟩)
            cases hcr : env.createResult with
            | error e =>
              exact Or.inl ⟨e, rfl, by simp [project_import_cmd, hv, hm, hn, hc, hcr]⟩
            | ok pid =>
              exact Or.inr ⟨pid, rfl, by simp [project_import_cmd, hv, hm, hn, hc, hcr]⟩
          | some pid =>
            refine Or.inr (Or.inr ⟨pid, rfl, ?_⟩)
            simp [project_import_cmd, hv, hm, hn, hc]

/-- Case analysis of the export command: every exit path, with the exact
trace and outcome. -/
theorem project_export_cmd_shape (env : ExportEnv) :
    (∃ e, env.creatorResult = Except.error e ∧
      project_export_cmd env = ⟨[Event.getCreator], Outcome.exited e⟩) ∨
    (∃ s t, env.creatorResult = Except.ok (none, s, t) ∧
      project_export_cmd env =
        ⟨[Event.getCreator], Outcome.exited "Validation error"⟩) ∨
    (∃ c s t msg, env.creatorResult = Except.ok (some c, s, t) ∧
      (runValidatorsPure 0 env.validators).2 = some msg ∧
      project_export_cmd env =
        ⟨Event.getCreator :: (runValidatorsPure 0 env.validators).1,
          Outcome.exited msg⟩) ∨
    (∃ c s t e, env.creatorResult = Except.ok (some c, s, t) ∧
      (runValidatorsPure 0 env.validators).2 = none ∧
      env.transferResult = Except.error e ∧
      project_export_cmd env =
        ⟨Event.getCreator :: ((runValidatorsPure 0 env.validators).1 ++
          [Event.transfer, Event.terminate]), Outcome.exited e⟩) ∨
    (∃ c s t e, env.creatorResult = Except.ok (some c, s, t) ∧
      (runValidatorsPure 0 env.validators).2 = none ∧
      env.transferResult = Except.ok () ∧
      env.dumpResult = Except.error e ∧
      project_export_cmd env =
        ⟨Event.getCreator :: ((runValidatorsPure 0 env.validators).1 ++
          [Event.transfer, Event.dumpMetadata, Event.terminate]),
          Outcome.exited e⟩) ∨
    (∃ c s t, env.creatorResult = Except.ok (some c, s, t) ∧
      (runValidatorsPure 0 env.validators).2 = none ∧
      env.transferResult = Except.ok () ∧
      env.dumpResult = Except.ok () ∧
      project_export_cmd env =
        ⟨Event.getCreator :: ((runValidatorsPure 0 env.validators).1 ++
          [Event.transfer, Event.dumpMetadata]), Outcome.success⟩) := by
  cases hcr : env.creatorResult with
  | error e =>
    exact Or.inl ⟨e, rfl, by simp [project_export_cmd, hcr]⟩
  | ok triple =>
    obtain ⟨copt, s, t⟩ := triple
    cases copt with
    | none =>
      exact Or.inr (Or.inl ⟨s, t, rfl, by simp [project_export_cmd, hcr]⟩)
    | some c =>
      cases hv : (runValidatorsPure 0 env.validators).2 with
      | some msg =>
        exact Or.inr (Or.inr (Or.inl ⟨c, s, t, msg, rfl, rfl,
          by simp [project_export_cmd, hcr, hv]⟩))
      | none =>
        cases ht : env.transferResult with
        | error e =>
          exact Or.inr (Or.inr (Or.inr (Or.inl ⟨c, s, t, e, rfl, rfl, rfl,
            by simp [project_export_cmd, hcr, hv, ht]⟩)))
        | ok u =>
          cases u
          cases hd : env.dumpResult with
          | error e =>
            exact Or.inr (Or.inr (Or.inr (Or.inr (Or.inl ⟨c, s, t, e, rfl, rfl, rfl, rfl,
              by simp [project_export_cmd, hcr, hv, ht, hd]⟩))))
          | ok u' =>
            cases u'
            exact Or.inr (Or.inr (Or.inr (Or.inr (Or.inr ⟨c, s, t, rfl, rfl, rfl, rfl,
              by simp [project_export_cmd, hcr, hv, ht, hd]⟩))))

/-- Events emitted by the validator loop are all `validate` events, so any
other event is absent from its trace. -/
theorem non_validate_not_mem_runValidatorsPure (k : Nat)
    (vs : List ValidationResponse) (e : Event)
    (hne : ∀ j r, e ≠ Event.validate j r) :
    e ∉ (runValidatorsPure k vs).1 := by
  intro he
  obtain ⟨j, r, hx, -, -⟩ := mem_runValidatorsPure_fst k vs e he
  exact hne j r hx

/-- C6: when the creator-username lookup returns no creator, the export
aborts as a fatal error (the `RuntimeError("Validation error")` path): the
trace is just the single identity lookup — no second lookup (no retry), no
file transfer, no session terminate. -/
theorem C6_identity_not_found (env : ExportEnv) (s t : String)
    (h : env.creatorResult = Except.ok (none, s, t)) :
    project_export_cmd env =
      ⟨[Event.getCreator], Outcome.exited "Validation error"⟩ ∧
    Event.transfer ∉ (project_export_cmd env).trace ∧
    Event.terminate ∉ (project_export_cmd env).trace ∧
    (project_export_cmd env).trace.countP (fun e => e == Event.getCreator) = 1 := by
  have heq : project_export_cmd env =
      ⟨[Event.getCreator], Outcome.exited "Validation error"⟩ := by
    simp [project_export_cmd, h]
  refine ⟨heq, ?_, ?_, ?_⟩ <;> rw [heq] <;> decide

/-- Witness for C6 at a concrete environment. -/
theorem C6_identity_not_found_witness :
    project_export_cmd { sampleExportEnv with
        creatorResult := Except.ok (none, "proj", "user") } =
      ⟨[Event.getCreator], Outcome.exited "Validation error"⟩ :=
  (C6_identity_not_found { sampleExportEnv with
      creatorResult := Except.ok (none, "proj", "user") } "proj" "user" rfl).1

/-- C8: on export, the metadata dump happens only after a completed file
transfer: if the transfer raises, no metadata dump is recorded; and
whenever a dump is recorded, the transfer result was a success and the
transfer call precedes the dump in the trace. -/
theorem C8_metadata_only_after_transfer (env : ExportEnv) :
    (∀ e, env.transferResult = Except.error e →
      Event.dumpMetadata ∉ (project_export_cmd env).trace) ∧
    (Event.dumpMetadata ∈ (project_export_cmd env).trace →
      env.transferResult = Except.ok () ∧
      ∃ l1 l2, (project_export_cmd env).trace = l1 ++ Event.dumpMetadata :: l2 ∧
        Event.transfer ∈ l1) := by
  have hnd : Event.dumpMetadata ∉ (runValidatorsPure 0 env.validators).1 :=
    non_validate_not_mem_runValidatorsPure 0 env.validators Event.dumpMetadata
      (fun j r hx => Event.noConfusion hx)
  rcases project_export_cmd_shape env with
      ⟨e, hc, heq⟩ | ⟨s, t, hc, heq⟩ | ⟨c, s, t, msg, hc, hv, heq⟩ |
      ⟨c, s, t, e, hc, hv, ht, heq⟩ | ⟨c, s, t, e, hc, hv, ht, hd, heq⟩ |
      ⟨c, s, t, hc, hv, ht, hd, heq⟩
  · constructor
    · intro e' he' hmem
      rw [heq] at hmem
      simp at hmem
    · intro hmem
      rw [heq] at hmem
      simp at hmem
  · constructor
    · intro e' he' hmem
      rw [heq] at hmem
      simp at hmem
    · intro hmem
      rw [heq] at hmem
      simp at hmem
  · constructor
    · intro e' he' hmem
      rw [heq] at hmem
      rcases List.mem_cons.mp hmem with hx | hx
      · exact Event.noConfusion hx
      · exact hnd hx
    · intro hmem
      rw [heq] at hmem
      rcases List.mem_cons.mp hmem with hx | hx
      · exact absurd hx (by decide)
      · exact absurd hx hnd
  · constructor
    · intro e' he' hmem
      rw [heq] at hmem
      rcases List.mem_cons.mp hmem with hx | hx
      · exact Event.noConfusion hx
      · rcases List.mem_append.mp hx with hy | hy
        · exact hnd hy
        · simp at hy
    · intro hmem
      rw [heq] at hmem
      rcases List.mem_cons.mp hmem with hx | hx
      · exact absurd hx (by decide)
      · rcases List.mem_append.mp hx with hy | hy
        · exact absurd hy hnd
        · simp at hy
  · refine ⟨?_, ?_⟩
    · intro e' he'
      rw [ht] at he'
      exact Except.noConfusion he'
    · intro _
      refine ⟨ht, Event.getCreator :: ((runValidatorsPure 0 env.validators).1 ++
        [Event.transfer]), [Event.terminate], ?_, ?_⟩
      · rw [heq]
        simp
      · simp
  · refine ⟨?_, ?_⟩
    · intro e' he'
      rw [ht] at he'
      exact Except.noConfusion he'
    · intro _
      refine ⟨ht, Event.getCreator :: ((runValidatorsPure 0 env.validators).1 ++
        [Event.transfer]), [], ?_, ?_⟩
      · rw [heq]
        simp
      · simp

/-- Witness for C8: a transfer failure records no metadata dump, and the
all-success export's dump is preceded by the transfer. -/
theorem C8_metadata_only_after_transfer_witness :
    Event.dumpMetadata ∉ (project_export_cmd { sampleExportEnv with
        transferResult := Except.error "network down" }).trace ∧
    (sampleExportEnv.transferResult = Except.ok () ∧
      ∃ l1 l2, (project_export_cmd sampleExportEnv).trace =
        l1 ++ Event.dumpMetadata :: l2 ∧ Event.transfer ∈ l1) :=
  ⟨(C8_metadata_only_after_transfer { sampleExportEnv with
      transferResult := Except.error "network down" }).1 "network down" rfl,
    (C8_metadata_only_after_transfer sampleExportEnv).2 (by decide)⟩

/-- Number of catalog-file writes recorded in a trace. -/
def writeCount : List CatEvent → Nat
  | [] => 0
  | CatEvent.write _ :: rest => writeCount rest + 1
  | _ :: rest => writeCount rest

theorem writeCount_append (l1 l2 : List CatEvent) :
    writeCount (l1 ++ l2) = writeCount l1 + writeCount l2 := by
  induction l1 with
  | nil => simp [writeCount]
  | cons e rest ih =>
    cases e <;>
      simp [writeCount, ih, Nat.add_assoc, Nat.add_comm, Nat.add_left_comm]

/-- The pagination loop only fetches; it never writes the catalog file. -/
theorem runCatalogLoop_fetch_only (pages : List PageResponse) (tok : String)
    (acc : List String) :
    ∀ e ∈ (runCatalogLoop pages tok acc).1, ∃ t, e = CatEvent.fetch t := by
  induction pages generalizing tok acc with
  | nil =>
    intro e he
    rw [runCatalogLoop] at he
    split at he
    · exact ⟨tok, List.mem_singleton.mp he⟩
    · simp at he
  | cons p rest ih =>
    intro e he
    match p with
    | none =>
      rw [runCatalogLoop] at he
      split at he
      · exact ⟨tok, List.mem_singleton.mp he⟩
      · simp at he
    | some (rs, tok') =>
      rw [runCatalogLoop] at he
      split at he
      · rcases List.mem_cons.mp he with hx | hx
        · exact ⟨tok, hx⟩
        · exact ih tok' (acc ++ rs) e hx
      · simp at he

theorem writeCount_eq_zero (l : List CatEvent)
    (h : ∀ e ∈ l, ∃ t, e = CatEvent.fetch t) : writeCount l = 0 := by
  induction l with
  | nil => rfl
  | cons e rest ih =>
    cases e with
    | fetch t => exact ih (fun x hx => h x (List.mem_cons_of_mem _ hx))
    | write rs =>
      obtain ⟨t, ht⟩ := h _ (List.mem_cons_self _ _)
      exact CatEvent.noConfusion ht

/-- The loop appends each page's entries onto the accumulator in order. -/
theorem runCatalogLoop_acc (pages : List PageResponse) (tok : String)
    (acc : List String) :
    (runCatalogLoop pages tok acc).2 = acc ++ (runCatalogLoop pages tok []).2 := by
  induction pages generalizing tok acc with
  | nil =>
    rw [runCatalogLoop, runCatalogLoop]
    split <;> simp
  | cons p rest ih =>
    match p with
    | none =>
      rw [runCatalogLoop]
      conv_rhs => rw [runCatalogLoop]
      split <;> simp
    | some (rs, tok') =>
      rw [runCatalogLoop]
      conv_rhs => rw [runCatalogLoop]
      split
      · simp only
        rw [ih tok' (acc ++ rs), ih tok' ([] ++ rs)]
        simp
      · simp

/-- C7: the catalog builder starts with an empty page token, appends each
page's runtimes in order, and continues while the next-page token is
non-empty.  On the spec's two-page example it aggregates `[a, b, c]` and
writes it exactly once; on an empty first page it writes nothing and
returns normally (Python raises nothing — it logs and returns); in
general the first fetch always uses the empty token, the file is written
exactly once when the run produces content and never otherwise, and the
loop accumulates by appending in order. -/
theorem C7_catalog_pagination :
    (populate_engine_runtimes_mapping
        [some (["a", "b"], "t1"), some (["c"], "")] true =
      ([CatEvent.fetch "", CatEvent.fetch "t1", CatEvent.write ["a", "b", "c"]],
        some ["a", "b", "c"])) ∧
    (∀ w, populate_engine_runtimes_mapping [some ([], "")] w =
      ([CatEvent.fetch ""], none)) ∧
    (∀ pages w, (populate_engine_runtimes_mapping pages w).1.head? =
      some (CatEvent.fetch "")) ∧
    (∀ pages w, writeCount (populate_engine_runtimes_mapping pages w).1 =
      (if (populate_engine_runtimes_mapping pages w).2 = none then 0 else 1)) ∧
    (∀ pages tok acc, (runCatalogLoop pages tok acc).2 =
      acc ++ (runCatalogLoop pages tok []).2) := by
  refine ⟨by decide, fun w => by cases w <;> rfl, ?_, ?_, runCatalogLoop_acc⟩
  · intro pages w
    match pages with
    | [] => rfl
    | none :: rest => rfl
    | some (rs, tok) :: rest =>
      rw [populate_engine_runtimes_mapping]
      split
      · split <;> rfl
      · rfl
  · intro pages w
    match pages with
    | [] => rfl
    | none :: rest => rfl
    | some (rs, tok) :: rest =>
      have h0 : writeCount (runCatalogLoop rest tok rs).1 = 0 :=
        writeCount_eq_zero _ (runCatalogLoop_fetch_only rest tok rs)
      rw [populate_engine_runtimes_mapping]
      split
      · split
        · simp [writeCount, writeCount_append, h0]
        · simp [writeCount, h0]
      · simp [writeCount, h0]

/-- C2 is false on the code: when the second fetch yields no response
after a non-empty first page, the `break` leaves the loop with the partial
aggregation, which is then written — the catalog file does get the
partial content `["a", "b"]`, not "no catalog file". -/
theorem C2_counterexample :
    populate_engine_runtimes_mapping [some (["a", "b"], "t1"), none] true =
      ([CatEvent.fetch "", CatEvent.fetch "t1", CatEvent.write ["a", "b"]],
        some ["a", "b"]) ∧
    (populate_engine_runtimes_mapping [some (["a", "b"], "t1"), none] true).2 ≠
      none :=
  ⟨by decide, by decide⟩

/-- C2 amended: when a page fetch after a non-empty first page yields no
response, pagination stops and the runtimes aggregated so far ARE written
to the catalog file (the partial aggregation is persisted, not
discarded). -/
theorem C2_amended (rs : List String) (tok : String) (rest : List PageResponse)
    (hrs : rs ≠ []) (htok : tok.length > 0) :
    populate_engine_runtimes_mapping (some (rs, tok) :: none :: rest) true =
      ([CatEvent.fetch "", CatEvent.fetch tok, CatEvent.write rs], some rs) := by
  have hlen : rs.length > 0 := List.length_pos.mpr hrs
  simp [populate_engine_runtimes_mapping, runCatalogLoop, htok, hlen]

/-- Witness for the amended C2 at a concrete page list. -/
theorem C2_amended_witness :
    populate_engine_runtimes_mapping [some (["x"], "t"), none] true =
      ([CatEvent.fetch "", CatEvent.fetch "t", CatEvent.write ["x"]],
        some ["x"]) :=
  C2_amended ["x"] "t" [] (by decide) (by decide)

/-- Every event in the tail of the import run is either from the supplied
prefix or one of the fixed post-creation calls. -/
theorem mem_importAfterCreate (env : ImportEnv) (pm : Metadata) (ue : Bool)
    (evs : List Event) (pid : String) (e : Event)
    (he : e ∈ (importAfterCreate env pm ue evs pid).trace) :
    e ∈ evs ∨ e = Event.getCreator ∨
    e = Event.constructImporter (importUsername env pm) ∨
    e = Event.transfer ∨ e = Event.terminate ∨
    (ue = true ∧ e = Event.patchEngine legacyPatch) ∨
    e = Event.importMeta pid := by
  rcases importAfterCreate_shape env pm ue evs pid with
      ⟨x, hx, heq⟩ | ⟨x, hx, heq⟩ | ⟨x, hue, ht, hp, heq⟩ |
      ⟨x, ht, hp, hi, heq⟩ | ⟨ht, hp, hi, heq⟩ <;>
    rw [heq] at he <;> simp at he <;> tauto

/-- The import tail only appends events to the trace accumulated so far. -/
theorem importAfterCreate_extends (env : ImportEnv) (pm : Metadata) (ue : Bool)
    (evs : List Event) (pid : String) :
    ∃ tail, (importAfterCreate env pm ue evs pid).trace = evs ++ tail := by
  rcases importAfterCreate_shape env pm ue evs pid with
      ⟨x, hx, heq⟩ | ⟨x, hx, heq⟩ | ⟨x, hue, ht, hp, heq⟩ |
      ⟨x, ht, hp, hi, heq⟩ | ⟨ht, hp, hi, heq⟩
  · exact ⟨[Event.getCreator], by rw [heq]⟩
  · exact ⟨[Event.getCreator, Event.constructImporter (importUsername env pm),
      Event.transfer, Event.terminate], by rw [heq]⟩
  · exact ⟨[Event.getCreator, Event.constructImporter (importUsername env pm),
      Event.transfer, Event.terminate, Event.patchEngine legacyPatch,
      Event.terminate], by rw [heq]⟩
  · exact ⟨[Event.getCreator, Event.constructImporter (importUsername env pm),
      Event.transfer, Event.terminate] ++
      (if ue = true then [Event.patchEngine legacyPatch] else []) ++
      [Event.importMeta pid, Event.terminate], by rw [heq]; simp⟩
  · exact ⟨[Event.getCreator, Event.constructImporter (importUsername env pm),
      Event.transfer, Event.terminate] ++
      (if ue = true then [Event.patchEngine legacyPatch] else []) ++
      [Event.importMeta pid], by rw [heq]; simp⟩

/-- When the creator lookup succeeds, the transferring importer is
constructed (with the computed username) and the transfer is initiated. -/
theorem constructImporter_mem_importAfterCreate (env : ImportEnv) (pm : Metadata)
    (ue : Bool) (evs : List Event) (pid : String) (cu : String × String)
    (hg : env.getCreatorResult = Except.ok cu) :
    Event.constructImporter (importUsername env pm) ∈
      (importAfterCreate env pm ue evs pid).trace ∧
    Event.transfer ∈ (importAfterCreate env pm ue evs pid).trace := by
  rcases importAfterCreate_shape env pm ue evs pid with
      ⟨x, hx, heq⟩ | ⟨x, hx, heq⟩ | ⟨x, hue, ht, hp, heq⟩ |
      ⟨x, ht, hp, hi, heq⟩ | ⟨ht, hp, hi, heq⟩
  · rw [hx] at hg
    exact Except.noConfusion hg
  all_goals rw [heq]
  all_goals exact ⟨by simp, by simp⟩

/-- `d.pop(k)` removes key `k`. -/
theorem Metadata.member_pop_self (m : Metadata) (k : String) :
    Metadata.member (Metadata.pop m k) k = false := by
  simp only [Metadata.member, Metadata.pop]
  rw [List.any_eq_false]
  intro x hx
  rw [List.mem_filter] at hx
  simpa using hx.2

theorem any_bne_filter (m : List (String × String)) (k k' : String)
    (h : k ≠ k') :
    (List.filter (fun p => p.1 != k') m).any (fun p => p.1 == k) =
      m.any (fun p => p.1 == k) := by
  induction m with
  | nil => rfl
  | cons a xs ih =>
    by_cases hb : a.1 = k'
    · have h1 : (a.1 != k') = false := by simp [hb]
      have h2 : (a.1 == k) = false := by
        simp [hb]
        exact fun e => h e.symm
      simp [List.filter_cons, h1, h2, ih]
    · have h1 : (a.1 != k') = true := by simp [hb]
      simp [List.filter_cons, h1, ih]

theorem find_bne_filter (m : List (String × String)) (k k' : String)
    (h : k ≠ k') :
    List.find? (fun p => p.1 == k) (List.filter (fun p => p.1 != k') m) =
      List.find? (fun p => p.1 == k) m := by
  induction m with
  | nil => rfl
  | cons a xs ih =>
    by_cases hb : a.1 = k'
    · have h1 : (a.1 != k') = false := by simp [hb]
      have h2 : (a.1 == k) = false := by
        simp [hb]
        exact fun e => h e.symm
      simp [List.filter_cons, h1, List.find?_cons, h2, ih]
    · have h1 : (a.1 != k') = true := by simp [hb]
      by_cases hak : a.1 = k
      · simp [List.filter_cons, h1, List.find?_cons, hak, h]
      · have h2 : (a.1 == k) = false := by simp [hak]
        simp [List.filter_cons, h1, List.find?_cons, h2, ih]

/-- `d.pop(k2)` leaves membership of a different key unchanged. -/
theorem Metadata.member_pop_ne (m : Metadata) (k k' : String) (h : k ≠ k') :
    Metadata.member (Metadata.pop m k') k = Metadata.member m k := by
  rw [Metadata.member, Metadata.pop, any_bne_filter m k k' h]
  rfl

/-- `d.pop(k2)` leaves lookup of a different key unchanged. -/
theorem Metadata.find_pop_ne (m : Metadata) (k k' : String) (h : k ≠ k') :
    Metadata.find (Metadata.pop m k') k = Metadata.find m k := by
  rw [Metadata.find, Metadata.pop, find_bne_filter m k k' h]
  rfl

theorem Metadata.getD_eq_of_find (m : Metadata) (k d v : String)
    (h : Metadata.find m k = some v) : Metadata.getD m k d = v := by
  simp [Metadata.getD, h]

/-- A `checkExist` event inside the pre-transfer prefix of the import trace
must be the single lookup keyed by the metadata name. -/
theorem checkExist_mem_prefix_aux (vs : List ValidationResponse) (name : String)
    (x : Event) (hx : ∀ n, x ≠ Event.checkExist n) (n : String)
    (hn : Event.checkExist n ∈
      (runValidatorsPure 0 vs).1 ++ [Event.checkExist name, x]) :
    n = name := by
  rcases List.mem_append.mp hn with h1 | h1
  · obtain ⟨j, r, hjr, -, -⟩ := mem_runValidatorsPure_fst _ _ _ h1
    exact Event.noConfusion hjr
  · rcases List.mem_cons.mp h1 with h2 | h2
    · exact Event.checkExist.inj h2
    · rcases List.mem_cons.mp h2 with h3 | h3
      · exact absurd h3.symm (hx n)
      · simp at h3

/-- C10: the destination-existence check is keyed on the `"name"` field of
the metadata document — every `check_project_exist` call in a run carries
exactly that name, never the CLI project name when the two differ — and
when the `"name"` key is missing the run aborts on the `KeyError` path
before any existence check, project creation, or file transfer. -/
theorem C10_check_keyed_on_metadata_name (env : ImportEnv) (pm0 : Metadata)
    (hv : (runValidatorsPure 0 env.validators).2 = none)
    (hm : env.metadataResult = Except.ok pm0) :
    (∀ name,
      Metadata.find (Metadata.pop pm0 "default_project_engine_type") "name" =
        some name →
      Event.checkExist name ∈ (project_import_cmd env).trace ∧
      (∀ n, Event.checkExist n ∈ (project_import_cmd env).trace → n = name) ∧
      (env.project_name ≠ name →
        Event.checkExist env.project_name ∉ (project_import_cmd env).trace)) ∧
    (Metadata.find (Metadata.pop pm0 "default_project_engine_type") "name" =
        none →
      project_import_cmd env =
        ⟨(runValidatorsPure 0 env.validators).1,
          Outcome.exited "KeyError: name"⟩ ∧
      (∀ m, Event.createProject m ∉ (project_import_cmd env).trace) ∧
      Event.transfer ∉ (project_import_cmd env).trace ∧
      (∀ n, Event.checkExist n ∉ (project_import_cmd env).trace)) := by
  rcases project_import_cmd_shape env with ⟨msg, hv', -⟩ | ⟨-, hrest⟩
  · rw [hv] at hv'
    exact Option.noConfusion hv'
  rcases hrest with ⟨e, hm', -⟩ | ⟨pm0', hm', hinner⟩
  · rw [hm] at hm'
    exact Except.noConfusion hm'
  rw [hm] at hm'
  injection hm' with hpm
  subst hpm
  constructor
  · intro name hname
    rcases hinner with ⟨hn', -⟩ | ⟨name', hn', hrest2⟩
    · rw [hname] at hn'
      exact Option.noConfusion hn'
    rw [hname] at hn'
    injection hn' with hne
    subst hne
    have hucreate : ∀ n, Event.createProject
        (Metadata.pop pm0 "default_project_engine_type") ≠ Event.checkExist n :=
      fun n h => Event.noConfusion h
    have huwarn : ∀ n, Event.warnExists
        (Metadata.getD (Metadata.pop pm0 "default_project_engine_type") "name" "")
        ≠ Event.checkExist n :=
      fun n h => Event.noConfusion h
    rcases hrest2 with ⟨e, hce, heq⟩ | ⟨hce, ⟨e, hcr, heq⟩ | ⟨pid, hcr, heq⟩⟩ |
        ⟨pid, hce, heq⟩
    · have huniq : ∀ n, Event.checkExist n ∈ (project_import_cmd env).trace →
          n = name := by
        intro n hn
        rw [heq] at hn
        rcases List.mem_append.mp hn with h1 | h1
        · obtain ⟨j, r, hjr, -, -⟩ := mem_runValidatorsPure_fst _ _ _ h1
          exact Event.noConfusion hjr
        · exact Event.checkExist.inj (List.mem_singleton.mp h1)
      refine ⟨by rw [heq]; simp, huniq, fun hne hmem => hne (huniq _ hmem)⟩
    · have huniq : ∀ n, Event.checkExist n ∈ (project_import_cmd env).trace →
          n = name := by
        intro n hn
        rw [heq] at hn
        exact checkExist_mem_prefix_aux env.validators name _ hucreate n
          (by simpa using hn)
      refine ⟨by rw [heq]; simp, huniq, fun hne hmem => hne (huniq _ hmem)⟩
    · obtain ⟨tail, htr⟩ := importAfterCreate_extends env
        (Metadata.pop pm0 "default_project_engine_type")
        (Metadata.member pm0 "default_project_engine_type")
        ((runValidatorsPure 0 env.validators).1 ++
          [Event.checkExist name, Event.createProject
            (Metadata.pop pm0 "default_project_engine_type")]) pid
      have huniq : ∀ n, Event.checkExist n ∈ (project_import_cmd env).trace →
          n = name := by
        intro n hn
        rw [heq] at hn
        rcases mem_importAfterCreate _ _ _ _ _ _ hn with
            hin | hin | hin | hin | hin | ⟨-, hin⟩ | hin
        · exact checkExist_mem_prefix_aux env.validators name _ hucreate n hin
        all_goals exact Event.noConfusion hin
      refine ⟨?_, huniq, fun hne hmem => hne (huniq _ hmem)⟩
      rw [heq, htr]
      simp
    · obtain ⟨tail, htr⟩ := importAfterCreate_extends env
        (Metadata.pop pm0 "default_project_engine_type")
        (Metadata.member pm0 "default_project_engine_type")
        ((runValidatorsPure 0 env.validators).1 ++
          [Event.checkExist name, Event.warnExists
            (Metadata.getD (Metadata.pop pm0 "default_project_engine_type")
              "name" "")]) pid
      have huniq : ∀ n, Event.checkExist n ∈ (project_import_cmd env).trace →
          n = name := by
        intro n hn
        rw [heq] at hn
        rcases mem_importAfterCreate _ _ _ _ _ _ hn with
            hin | hin | hin | hin | hin | ⟨-, hin⟩ | hin
        · exact checkExist_mem_prefix_aux env.validators name _ huwarn n hin
        all_goals exact Event.noConfusion hin
      refine ⟨?_, huniq, fun hne hmem => hne (huniq _ hmem)⟩
      rw [heq, htr]
      simp
  · intro hnone
    rcases hinner with ⟨-, heq⟩ | ⟨name', hn', -⟩
    · refine ⟨heq, ?_, ?_, ?_⟩
      · intro m hmem
        rw [heq] at hmem
        exact non_validate_not_mem_runValidatorsPure 0 env.validators _
          (fun j r hx => Event.noConfusion hx) hmem
      · rw [heq]
        exact non_validate_not_mem_runValidatorsPure 0 env.validators _
          (fun j r hx => Event.noConfusion hx)
      · intro n hmem
        rw [heq] at hmem
        exact non_validate_not_mem_runValidatorsPure 0 env.validators _
          (fun j r hx => Event.noConfusion hx) hmem
    · rw [hnone] at hn'
      exact Option.noConfusion hn'

/-- A successful lookup implies membership. -/
theorem Metadata.member_of_find (m : Metadata) (k v : String)
    (h : Metadata.find m k = some v) : Metadata.member m k = true := by
  unfold Metadata.find at h
  obtain ⟨p, hfind⟩ : ∃ p, List.find? (fun p => p.1 == k) m = some p := by
    cases hf : List.find? (fun p => p.1 == k) m with
    | none =>
      rw [hf] at h
      exact Option.noConfusion h
    | some p => exact ⟨p, rfl⟩
  have hp := List.find?_some hfind
  have hmem := List.mem_of_find?_eq_some hfind
  unfold Metadata.member
  rw [List.any_eq_true]
  exact ⟨p, hmem, hp⟩

/-- When validation, metadata read, name lookup and the existence check
(some project id) all succeed, the import reduces to the post-creation tail
after the check and the already-exists warning. -/
theorem project_import_cmd_reduces_exists (env : ImportEnv) (pm0 : Metadata)
    (name pid : String)
    (hv : (runValidatorsPure 0 env.validators).2 = none)
    (hm : env.metadataResult = Except.ok pm0)
    (hname : Metadata.find (Metadata.pop pm0 "default_project_engine_type")
      "name" = some name)
    (hce : env.checkExistResult = Except.ok (some pid)) :
    project_import_cmd env =
      importAfterCreate env (Metadata.pop pm0 "default_project_engine_type")
        (Metadata.member pm0 "default_project_engine_type")
        ((runValidatorsPure 0 env.validators).1 ++
          [Event.checkExist name, Event.warnExists name]) pid := by
  have hgetd := Metadata.getD_eq_of_find _ _ "" _ hname
  simp [project_import_cmd, hv, hm, hname, hce, hgetd]

/-- When the existence check returns `None` and creation succeeds,
the import reduces to the tail after the check and the creation call. -/
theorem project_import_cmd_reduces_create (env : ImportEnv) (pm0 : Metadata)
    (name pid : String)
    (hv : (runValidatorsPure 0 env.validators).2 = none)
    (hm : env.metadataResult = Except.ok pm0)
    (hname : Metadata.find (Metadata.pop pm0 "default_project_engine_type")
      "name" = some name)
    (hce : env.checkExistResult = Except.ok none)
    (hcr : env.createResult = Except.ok pid) :
    project_import_cmd env =
      importAfterCreate env (Metadata.pop pm0 "default_project_engine_type")
        (Metadata.member pm0 "default_project_engine_type")
        ((runValidatorsPure 0 env.validators).1 ++
          [Event.checkExist name, Event.createProject
            (Metadata.pop pm0 "default_project_engine_type")]) pid := by
  simp [project_import_cmd, hv, hm, hname, hce, hcr]

/-- C9: when the metadata document has a `team_name` key, the transferring
`ProjectImporter` is constructed with the team name as its username; when
it has none, the configured username is used. -/
theorem C9_team_name_username (env : ImportEnv) (pm0 : Metadata)
    (name pid : String) (cu : String × String)
    (hv : (runValidatorsPure 0 env.validators).2 = none)
    (hm : env.metadataResult = Except.ok pm0)
    (hname : Metadata.find (Metadata.pop pm0 "default_project_engine_type")
      "name" = some name)
    (hce : env.checkExistResult = Except.ok (some pid))
    (hg : env.getCreatorResult = Except.ok cu) :
    (∀ tn, Metadata.find pm0 "team_name" = some tn →
      Event.constructImporter tn ∈ (project_import_cmd env).trace) ∧
    (Metadata.member pm0 "team_name" = false →
      Event.constructImporter env.username ∈ (project_import_cmd env).trace) := by
  have heq := project_import_cmd_reduces_exists env pm0 name pid hv hm hname hce
  have hne : "team_name" ≠ "default_project_engine_type" := by decide
  constructor
  · intro tn htn
    have hfindpm : Metadata.find
        (Metadata.pop pm0 "default_project_engine_type") "team_name" = some tn := by
      rw [Metadata.find_pop_ne _ _ _ hne]
      exact htn
    have hmemt := Metadata.member_of_find _ _ _ hfindpm
    have hu : importUsername env
        (Metadata.pop pm0 "default_project_engine_type") = tn := by
      rw [importUsername, hmemt]
      simp [Metadata.getD_eq_of_find _ _ "" _ hfindpm]
    rw [heq, ← hu]
    exact (constructImporter_mem_importAfterCreate env _ _ _ pid cu hg).1
  · intro hno
    have hmemt : Metadata.member
        (Metadata.pop pm0 "default_project_engine_type") "team_name" = false := by
      rw [Metadata.member_pop_ne _ _ _ hne]
      exact hno
    have hu : importUsername env
        (Metadata.pop pm0 "default_project_engine_type") = env.username := by
      rw [importUsername, hmemt]
      simp
    rw [heq, ← hu]
    exact (constructImporter_mem_importAfterCreate env _ _ _ pid cu hg).1

/-- Modelled from the spec: `ProjectImporter.import_metadata(project_id)`
is not under `src/` (only its call site is).  Spec section 4.4 says that on
re-import "existing destination settings/artifacts are never overwritten by
re-import, only missing artifacts are added".  Applied to the destination
project's settings `dst` with source metadata `srcMd`, the call adds each
source entry whose key is absent from `dst` and leaves every existing
entry unchanged. -/
def import_metadata_effect (dst srcMd : Metadata) : Metadata :=
  dst ++ srcMd.filter (fun p => !(Metadata.member dst p.1))

/-- Modelled from the spec: the remote "metadata patch by project id"
(spec section 6; `patchLegacyEngine` in section 4.4), the call behind
`convert_project_to_engine_based`, which is not under `src/`.  It sets each
key of the patch document on the destination, replacing any prior
value. -/
def applyPatch (dst patch : Metadata) : Metadata :=
  patch.foldl (fun d p => Metadata.pop d p.1 ++ [(p.1, p.2)]) dst

/-- Modelled from the spec: the destination-side effect of one collaborator
call on the destination project's settings (`none` = project absent):
`create_project_v2` creates the project with the supplied marker-stripped
metadata, the metadata re-import applies `import_metadata_effect`, the
engine conversion applies its patch, and every other call leaves the
destination settings untouched. -/
def destSettingsStep (srcMd : Metadata) (dst : Option Metadata) (e : Event) :
    Option Metadata :=
  match e with
  | Event.createProject m => some m
  | Event.importMeta _ => dst.map (fun d => import_metadata_effect d srcMd)
  | Event.patchEngine p => dst.map (fun d => applyPatch d p)
  | _ => dst

/-- Destination settings after a whole trace of collaborator calls. -/
def destSettingsAfter (srcMd : Metadata) (dst : Option Metadata)
    (t : List Event) : Option Metadata :=
  t.foldl (destSettingsStep srcMd) dst

theorem find?_append_of_some (l1 l2 : List (String × String))
    (q : String × String → Bool) (p0 : String × String)
    (h : List.find? q l1 = some p0) :
    List.find? q (l1 ++ l2) = some p0 := by
  induction l1 with
  | nil => simp [List.find?] at h
  | cons a rest ih =>
    rw [List.cons_append]
    cases hq : q a with
    | true =>
      rw [List.find?_cons_of_pos _ hq] at h
      rw [List.find?_cons_of_pos _ hq]
      exact h
    | false =>
      rw [List.find?_cons_of_neg _ (by simp [hq])] at h
      rw [List.find?_cons_of_neg _ (by simp [hq])]
      exact ih h

theorem Metadata.find_append_of_some (m1 m2 : Metadata) (k v : String)
    (h : Metadata.find m1 k = some v) :
    Metadata.find (m1 ++ m2) k = some v := by
  unfold Metadata.find at h ⊢
  cases hf : List.find? (fun p => p.1 == k) m1 with
  | none =>
    rw [hf] at h
    simp at h
  | some p0 =>
    rw [hf] at h
    rw [find?_append_of_some m1 m2 _ p0 hf]
    exact h

theorem Metadata.find_eq_none_of_not_member (m : Metadata) (k : String)
    (h : Metadata.member m k = false) : Metadata.find m k = none := by
  unfold Metadata.member at h
  rw [List.any_eq_false] at h
  unfold Metadata.find
  rw [List.find?_eq_none.mpr h]
  rfl

theorem find?_append_of_none (l1 l2 : List (String × String))
    (q : String × String → Bool)
    (h : List.find? q l1 = none) :
    List.find? q (l1 ++ l2) = List.find? q l2 := by
  induction l1 with
  | nil => simp
  | cons a rest ih =>
    cases hq : q a with
    | true =>
      rw [List.find?_cons_of_pos _ hq] at h
      exact Option.noConfusion h
    | false =>
      rw [List.find?_cons_of_neg _ (by simp [hq])] at h
      rw [List.cons_append, List.find?_cons_of_neg _ (by simp [hq])]
      exact ih h

theorem find?_filter_of_key (l : List (String × String)) (k : String)
    (q : String × String → Bool) (hq : ∀ p, p.1 = k → q p = true) :
    List.find? (fun p => p.1 == k) (List.filter q l) =
      List.find? (fun p => p.1 == k) l := by
  induction l with
  | nil => rfl
  | cons a rest ih =>
    by_cases hak : a.1 = k
    · have h1 : q a = true := hq a hak
      have h2 : (a.1 == k) = true := by simp [hak]
      simp [List.filter_cons, h1, List.find?_cons, h2]
    · have h2 : (a.1 == k) = false := by simp [hak]
      cases h1 : q a with
      | true => simp [List.filter_cons, h1, List.find?_cons, h2, ih]
      | false => simp [List.filter_cons, h1, List.find?_cons, h2, ih]

/-- The spec-modelled metadata re-import never overwrites an existing
destination setting. -/
theorem import_metadata_effect_preserves (dst srcMd : Metadata) (k v : String)
    (h : Metadata.find dst k = some v) :
    Metadata.find (import_metadata_effect dst srcMd) k = some v :=
  Metadata.find_append_of_some dst _ k v h

/-- The spec-modelled metadata re-import adds only missing entries: a key
absent from the destination ends up with the source's value for it. -/
theorem import_metadata_effect_adds_missing (dst srcMd : Metadata) (k : String)
    (h : Metadata.member dst k = false) :
    Metadata.find (import_metadata_effect dst srcMd) k =
      Metadata.find srcMd k := by
  have hn : Metadata.find dst k = none :=
    Metadata.find_eq_none_of_not_member dst k h
  unfold import_metadata_effect Metadata.find
  unfold Metadata.find at hn
  have hn' : List.find? (fun p => p.1 == k) dst = none := by
    cases hf : List.find? (fun p => p.1 == k) dst with
    | none => rfl
    | some p0 =>
      rw [hf] at hn
      simp at hn
  rw [find?_append_of_none _ _ _ hn']
  rw [find?_filter_of_key _ k _ (fun p hp => by simp [hp, h])]

/-- The legacy-engine patch touches only the marker key. -/
theorem applyPatch_legacy_preserves (d : Metadata) (k v : String)
    (hk : k ≠ "default_project_engine_type")
    (h : Metadata.find d k = some v) :
    Metadata.find (applyPatch d legacyPatch) k = some v := by
  have hstep : applyPatch d legacyPatch =
      Metadata.pop d "default_project_engine_type" ++
        [("default_project_engine_type", "legacy_engine")] := rfl
  rw [hstep]
  apply Metadata.find_append_of_some
  rw [Metadata.find_pop_ne _ _ _ hk]
  exact h

/-- Over any trace with no project creation and no patch other than the
legacy-engine patch (on a key other than the marker), every pre-existing
destination setting keeps its value. -/
theorem destSettingsAfter_preserves (srcMd : Metadata) (t : List Event)
    (k v : String)
    (hstep : ∀ e ∈ t, (∀ m, e ≠ Event.createProject m) ∧
      (∀ m, e = Event.patchEngine m →
        m = legacyPatch ∧ k ≠ "default_project_engine_type")) :
    ∀ dst : Metadata, Metadata.find dst k = some v →
      ∃ d', destSettingsAfter srcMd (some dst) t = some d' ∧
        Metadata.find d' k = some v := by
  induction t with
  | nil => exact fun dst h => ⟨dst, rfl, h⟩
  | cons e rest ih =>
    intro dst h
    have hrest := fun x hx => hstep x (List.mem_cons_of_mem _ hx)
    have hhead := hstep e (List.mem_cons_self _ _)
    have hfold : destSettingsAfter srcMd (some dst) (e :: rest) =
        destSettingsAfter srcMd (destSettingsStep srcMd (some dst) e) rest := rfl
    cases e with
    | createProject m => exact absurd rfl (hhead.1 m)
    | importMeta pid =>
      rw [hfold]
      exact ih hrest (import_metadata_effect dst srcMd)
        (import_metadata_effect_preserves dst srcMd k v h)
    | patchEngine m =>
      obtain ⟨hm, hk⟩ := hhead.2 m rfl
      subst hm
      rw [hfold]
      exact ih hrest (applyPatch dst legacyPatch)
        (applyPatch_legacy_preserves dst k v hk h)
    | validate i r => exact hfold ▸ ih hrest dst h
    | getCreator => exact hfold ▸ ih hrest dst h
    | checkExist n => exact hfold ▸ ih hrest dst h
    | warnExists n => exact hfold ▸ ih hrest dst h
    | constructImporter u => exact hfold ▸ ih hrest dst h
    | transfer => exact hfold ▸ ih hrest dst h
    | terminate => exact hfold ▸ ih hrest dst h
    | dumpMetadata => exact hfold ▸ ih hrest dst h

/-- On any import path whose metadata document lacks the legacy-engine
marker, no engine patch call is ever made. -/
theorem patchEngine_not_mem_of_no_marker (env : ImportEnv) (pm0 : Metadata)
    (hm : env.metadataResult = Except.ok pm0)
    (hno : Metadata.member pm0 "default_project_engine_type" = false)
    (m : Metadata) :
    Event.patchEngine m ∉ (project_import_cmd env).trace := by
  intro hmem
  have hval : ∀ k vs, Event.patchEngine m ∉ (runValidatorsPure k vs).1 :=
    fun k vs => non_validate_not_mem_runValidatorsPure k vs _
      (fun j r hx => Event.noConfusion hx)
  rcases project_import_cmd_shape env with ⟨msg, hv', heq⟩ | ⟨hv', hrest⟩
  · rw [heq] at hmem
    exact hval 0 env.validators hmem
  rcases hrest with ⟨e, hm', heq⟩ | ⟨pm0', hm', hinner⟩
  · rw [heq] at hmem
    exact hval 0 env.validators hmem
  rw [hm] at hm'
  injection hm' with hpm
  subst hpm
  rcases hinner with ⟨hn', heq⟩ | ⟨name, hn', hrest2⟩
  · rw [heq] at hmem
    exact hval 0 env.validators hmem
  rcases hrest2 with ⟨e, hce, heq⟩ | ⟨hce, ⟨e, hcr, heq⟩ | ⟨pid, hcr, heq⟩⟩ |
      ⟨pid, hce, heq⟩
  · rw [heq] at hmem
    rcases List.mem_append.mp hmem with h1 | h1
    · exact hval 0 env.validators h1
    · exact Event.noConfusion (List.mem_singleton.mp h1)
  · rw [heq] at hmem
    rcases List.mem_append.mp hmem with h1 | h1
    · exact hval 0 env.validators h1
    · rcases List.mem_cons.mp h1 with h2 | h2
      · exact Event.noConfusion h2
      · rcases List.mem_cons.mp h2 with h3 | h3
        · exact Event.noConfusion h3
        · simp at h3
  · rw [heq] at hmem
    rcases mem_importAfterCreate _ _ _ _ _ _ hmem with
        hin | hin | hin | hin | hin | ⟨hue, -⟩ | hin
    · rcases List.mem_append.mp hin with h1 | h1
      · exact hval 0 env.validators h1
      · rcases List.mem_cons.mp h1 with h2 | h2
        · exact Event.noConfusion h2
        · rcases List.mem_cons.mp h2 with h3 | h3
          · exact Event.noConfusion h3
          · simp at h3
    · exact Event.noConfusion hin
    · exact Event.noConfusion hin
    · exact Event.noConfusion hin
    · exact Event.noConfusion hin
    · rw [hno] at hue
      exact Bool.noConfusion hue
    · exact Event.noConfusion hin
  · rw [heq] at hmem
    rcases mem_importAfterCreate _ _ _ _ _ _ hmem with
        hin | hin | hin | hin | hin | ⟨hue, -⟩ | hin
    · rcases List.mem_append.mp hin with h1 | h1
      · exact hval 0 env.validators h1
      · rcases List.mem_cons.mp h1 with h2 | h2
        · exact Event.noConfusion h2
        · rcases List.mem_cons.mp h2 with h3 | h3
          · exact Event.noConfusion h3
          · simp at h3
    · exact Event.noConfusion hin
    · exact Event.noConfusion hin
    · exact Event.noConfusion hin
    · exact Event.noConfusion hin
    · rw [hno] at hue
      exact Bool.noConfusion hue
    · exact Event.noConfusion hin

/-- C5: when the destination project already exists (the existence lookup
returns an id), no `create_project_v2` call is ever made, the already-
exists warning is emitted, the file transfer is still initiated, and —
with the metadata re-import modelled from the spec — existing destination
project settings are not overwritten: the re-import adds only entries
whose keys are missing from the destination, and across the whole run
every pre-existing destination setting keeps its value (for a marker-free
source document outright; in general for every key other than the
legacy-engine marker, which the spec-mandated engine patch sets). -/
theorem C5_existing_project_not_recreated (env : ImportEnv) (pm0 : Metadata)
    (name pid : String)
    (hv : (runValidatorsPure 0 env.validators).2 = none)
    (hm : env.metadataResult = Except.ok pm0)
    (hname : Metadata.find (Metadata.pop pm0 "default_project_engine_type")
      "name" = some name)
    (hce : env.checkExistResult = Except.ok (some pid)) :
    (∀ m, Event.createProject m ∉ (project_import_cmd env).trace) ∧
    Event.warnExists name ∈ (project_import_cmd env).trace ∧
    (∀ cu, env.getCreatorResult = Except.ok cu →
      Event.transfer ∈ (project_import_cmd env).trace) ∧
    (∀ dst srcMd k v, Metadata.find dst k = some v →
      Metadata.find (import_metadata_effect dst srcMd) k = some v) ∧
    (∀ dst srcMd k, Metadata.member dst k = false →
      Metadata.find (import_metadata_effect dst srcMd) k =
        Metadata.find srcMd k) ∧
    (∀ srcMd dst k v, Metadata.find dst k = some v →
      (Metadata.member pm0 "default_project_engine_type" = false ∨
        k ≠ "default_project_engine_type") →
      ∃ d', destSettingsAfter srcMd (some dst)
          (project_import_cmd env).trace = some d' ∧
        Metadata.find d' k = some v) := by
  have heq := project_import_cmd_reduces_exists env pm0 name pid hv hm hname hce
  have hnocreate : ∀ m, Event.createProject m ∉ (project_import_cmd env).trace := by
    intro m hmem
    rw [heq] at hmem
    rcases mem_importAfterCreate _ _ _ _ _ _ hmem with
        hin | hin | hin | hin | hin | ⟨-, hin⟩ | hin
    · rcases List.mem_append.mp hin with h1 | h1
      · obtain ⟨j, r, hjr, -, -⟩ := mem_runValidatorsPure_fst _ _ _ h1
        exact Event.noConfusion hjr
      · rcases List.mem_cons.mp h1 with h2 | h2
        · exact Event.noConfusion h2
        · rcases List.mem_cons.mp h2 with h3 | h3
          · exact Event.noConfusion h3
          · simp at h3
    all_goals exact Event.noConfusion hin
  have hpatchall : ∀ m, Event.patchEngine m ∈ (project_import_cmd env).trace →
      m = legacyPatch := by
    intro m hmem
    rw [heq] at hmem
    rcases mem_importAfterCreate _ _ _ _ _ _ hmem with
        hin | hin | hin | hin | hin | ⟨-, hin⟩ | hin
    · rcases List.mem_append.mp hin with h1 | h1
      · obtain ⟨j, r, hjr, -, -⟩ := mem_runValidatorsPure_fst _ _ _ h1
        exact Event.noConfusion hjr
      · rcases List.mem_cons.mp h1 with h2 | h2
        · exact Event.noConfusion h2
        · rcases List.mem_cons.mp h2 with h3 | h3
          · exact Event.noConfusion h3
          · simp at h3
    · exact Event.noConfusion hin
    · exact Event.noConfusion hin
    · exact Event.noConfusion hin
    · exact Event.noConfusion hin
    · exact Event.patchEngine.inj hin
    · exact Event.noConfusion hin
  refine ⟨hnocreate, ?_, ?_,
    fun dst srcMd k v h => import_metadata_effect_preserves dst srcMd k v h,
    fun dst srcMd k h => import_metadata_effect_adds_missing dst srcMd k h, ?_⟩
  · obtain ⟨tail, htr⟩ := importAfterCreate_extends env
      (Metadata.pop pm0 "default_project_engine_type")
      (Metadata.member pm0 "default_project_engine_type")
      ((runValidatorsPure 0 env.validators).1 ++
        [Event.checkExist name, Event.warnExists name]) pid
    rw [heq, htr]
    simp
  · intro cu hg
    rw [heq]
    exact (constructImporter_mem_importAfterCreate env _ _ _ pid cu hg).2
  · intro srcMd dst k v hfind hcase
    have hstep : ∀ e ∈ (project_import_cmd env).trace,
        (∀ m, e ≠ Event.createProject m) ∧
        (∀ m, e = Event.patchEngine m →
          m = legacyPatch ∧ k ≠ "default_project_engine_type") := by
      intro e he
      refine ⟨fun m hm' => hnocreate m (hm' ▸ he), fun m hme => ?_⟩
      rcases hcase with hno | hk
      · exact absurd (hme ▸ he) (patchEngine_not_mem_of_no_marker env pm0 hm hno m)
      · exact ⟨hpatchall m (hme ▸ he), hk⟩
    exact destSettingsAfter_preserves srcMd _ k v hstep dst hfind

/-- C4: the legacy-engine marker is stripped from the metadata handed to
project creation; when the marker was present, the patch
`{"default_project_engine_type": "legacy_engine"}` is applied, and only
after the transfer and the session terminate both appear earlier in the
trace; when the marker is absent (in this run or any other), no engine
patch is ever applied. -/
theorem C4_legacy_engine_patch (env : ImportEnv) (pm0 : Metadata)
    (name pid : String) (cu : String × String)
    (hv : (runValidatorsPure 0 env.validators).2 = none)
    (hm : env.metadataResult = Except.ok pm0)
    (hname : Metadata.find (Metadata.pop pm0 "default_project_engine_type")
      "name" = some name)
    (hce : env.checkExistResult = Except.ok none)
    (hcr : env.createResult = Except.ok pid)
    (hg : env.getCreatorResult = Except.ok cu)
    (ht : env.transferResult = Except.ok ())
    (hp : env.patchResult = Except.ok ())
    (hi : env.importMetaResult = Except.ok ()) :
    Metadata.member (Metadata.pop pm0 "default_project_engine_type")
      "default_project_engine_type" = false ∧
    (Metadata.member pm0 "default_project_engine_type" = true →
      project_import_cmd env =
        ⟨(runValidatorsPure 0 env.validators).1 ++
          [Event.checkExist name,
            Event.createProject
              (Metadata.pop pm0 "default_project_engine_type"),
            Event.getCreator,
            Event.constructImporter (importUsername env
              (Metadata.pop pm0 "default_project_engine_type")),
            Event.transfer, Event.terminate, Event.patchEngine legacyPatch,
            Event.importMeta pid], Outcome.success⟩ ∧
      ∃ l1 l2, (project_import_cmd env).trace =
        l1 ++ Event.patchEngine legacyPatch :: l2 ∧
        Event.transfer ∈ l1 ∧ Event.terminate ∈ l1) ∧
    (Metadata.member pm0 "default_project_engine_type" = false →
      ∀ m, Event.patchEngine m ∉ (project_import_cmd env).trace) ∧
    (∀ (envA : ImportEnv) (pmA : Metadata), envA.metadataResult = Except.ok pmA →
      Metadata.member pmA "default_project_engine_type" = false →
      ∀ m, Event.patchEngine m ∉ (project_import_cmd envA).trace) := by
  have heq := project_import_cmd_reduces_create env pm0 name pid hv hm hname hce hcr
  refine ⟨Metadata.member_pop_self pm0 _, ?_, ?_,
    fun envA pmA hmA hnoA m => patchEngine_not_mem_of_no_marker envA pmA hmA hnoA m⟩
  · intro hmark
    have htrace : project_import_cmd env =
        ⟨(runValidatorsPure 0 env.validators).1 ++
          [Event.checkExist name,
            Event.createProject
              (Metadata.pop pm0 "default_project_engine_type"),
            Event.getCreator,
            Event.constructImporter (importUsername env
              (Metadata.pop pm0 "default_project_engine_type")),
            Event.transfer, Event.terminate, Event.patchEngine legacyPatch,
            Event.importMeta pid], Outcome.success⟩ := by
      rw [heq]
      simp [importAfterCreate, hg, ht, hmark, hp, hi]
    refine ⟨htrace, (runValidatorsPure 0 env.validators).1 ++
      [Event.checkExist name,
        Event.createProject (Metadata.pop pm0 "default_project_engine_type"),
        Event.getCreator,
        Event.constructImporter (importUsername env
          (Metadata.pop pm0 "default_project_engine_type")),
        Event.transfer, Event.terminate],
      [Event.importMeta pid], ?_, by simp, by simp⟩
    rw [htrace]
    simp
  · intro hno
    exact fun m => patchEngine_not_mem_of_no_marker env pm0 hm hno m

/-- C1 is false on the code: on import, a failure during metadata import
(after the transfer) leads to `terminate_ssh_session()` being invoked
twice — once on the normal path after the transfer and once again by the
`except:` handler — not exactly once; and a fully successful export never
invokes terminate at all. -/
theorem C1_counterexample :
    terminateCount (project_import_cmd { sampleImportEnv with
      importMetaResult := Except.error "metadata import failed" }).trace = 2 ∧
    terminateCount (project_import_cmd { sampleImportEnv with
      importMetaResult := Except.error "metadata import failed" }).trace ≠ 1 ∧
    terminateCount (project_export_cmd sampleExportEnv).trace = 0 :=
  ⟨by decide, by decide, by decide⟩

/-- C1 amended: the entrypoints invoke `terminate_ssh_session()` as
follows.  Import: twice when a failure occurs after the transfer (during
legacy-engine patching or metadata import); exactly once on success and on
a transfer failure; zero times when validation fails (before the
transferring importer exists).  Export: zero times on success and once on
a transfer failure. -/
theorem C1_amended :
    (∀ (pn u : String) (vs : List ValidationResponse) (pm0 : Metadata)
        (name pid cu slug e : String) (cr : Except String String),
      (runValidatorsPure 0 vs).2 = none →
      Metadata.find (Metadata.pop pm0 "default_project_engine_type") "name" =
        some name →
      terminateCount (project_import_cmd
        ⟨pn, u, vs, Except.ok pm0, Except.ok (some pid), cr,
          Except.ok (cu, slug), Except.ok (), Except.ok (),
          Except.error e⟩).trace = 2) ∧
    (∀ (pn u : String) (vs : List ValidationResponse) (pm0 : Metadata)
        (name pid cu slug e : String) (cr : Except String String)
        (im : Except String Unit),
      (runValidatorsPure 0 vs).2 = none →
      Metadata.find (Metadata.pop pm0 "default_project_engine_type") "name" =
        some name →
      Metadata.member pm0 "default_project_engine_type" = true →
      terminateCount (project_import_cmd
        ⟨pn, u, vs, Except.ok pm0, Except.ok (some pid), cr,
          Except.ok (cu, slug), Except.ok (), Except.error e, im⟩).trace = 2) ∧
    (∀ (pn u : String) (vs : List ValidationResponse) (pm0 : Metadata)
        (name pid cu slug : String) (cr : Except String String),
      (runValidatorsPure 0 vs).2 = none →
      Metadata.find (Metadata.pop pm0 "default_project_engine_type") "name" =
        some name →
      terminateCount (project_import_cmd
        ⟨pn, u, vs, Except.ok pm0, Except.ok (some pid), cr,
          Except.ok (cu, slug), Except.ok (), Except.ok (),
          Except.ok ()⟩).trace = 1) ∧
    (∀ (pn u : String) (vs : List ValidationResponse) (pm0 : Metadata)
        (name pid cu slug e : String) (cr : Except String String)
        (pr im : Except String Unit),
      (runValidatorsPure 0 vs).2 = none →
      Metadata.find (Metadata.pop pm0 "default_project_engine_type") "name" =
        some name →
      terminateCount (project_import_cmd
        ⟨pn, u, vs, Except.ok pm0, Except.ok (some pid), cr,
          Except.ok (cu, slug), Except.error e, pr, im⟩).trace = 1) ∧
    (∀ (env : ImportEnv) (msg : String),
      (runValidatorsPure 0 env.validators).2 = some msg →
      terminateCount (project_import_cmd env).trace = 0) ∧
    (∀ (env : ExportEnv) (c s t : String),
      env.creatorResult = Except.ok (some c, s, t) →
      (runValidatorsPure 0 env.validators).2 = none →
      env.transferResult = Except.ok () →
      env.dumpResult = Except.ok () →
      terminateCount (project_export_cmd env).trace = 0) ∧
    (∀ (env : ExportEnv) (c s t e : String),
      env.creatorResult = Except.ok (some c, s, t) →
      (runValidatorsPure 0 env.validators).2 = none →
      env.transferResult = Except.error e →
      terminateCount (project_export_cmd env).trace = 1) := by
  refine ⟨?_, ?_, ?_, ?_, ?_, ?_, ?_⟩
  · intro pn u vs pm0 name pid cu slug e cr hv hname
    have heq := project_import_cmd_reduces_exists
      ⟨pn, u, vs, Except.ok pm0, Except.ok (some pid), cr,
        Except.ok (cu, slug), Except.ok (), Except.ok (), Except.error e⟩
      pm0 name pid hv rfl hname rfl
    rw [heq]
    cases hmark : Metadata.member pm0 "default_project_engine_type" <;>
      simp [importAfterCreate, hmark, terminateCount_append,
        terminateCount_runValidatorsPure, terminateCount]
  · intro pn u vs pm0 name pid cu slug e cr im hv hname hmark
    have heq := project_import_cmd_reduces_exists
      ⟨pn, u, vs, Except.ok pm0, Except.ok (some pid), cr,
        Except.ok (cu, slug), Except.ok (), Except.error e, im⟩
      pm0 name pid hv rfl hname rfl
    rw [heq]
    simp [importAfterCreate, hmark, terminateCount_append,
      terminateCount_runValidatorsPure, terminateCount]
  · intro pn u vs pm0 name pid cu slug cr hv hname
    have heq := project_import_cmd_reduces_exists
      ⟨pn, u, vs, Except.ok pm0, Except.ok (some pid), cr,
        Except.ok (cu, slug), Except.ok (), Except.ok (), Except.ok ()⟩
      pm0 name pid hv rfl hname rfl
    rw [heq]
    cases hmark : Metadata.member pm0 "default_project_engine_type" <;>
      simp [importAfterCreate, hmark, terminateCount_append,
        terminateCount_runValidatorsPure, terminateCount]
  · intro pn u vs pm0 name pid cu slug e cr pr im hv hname
    have heq := project_import_cmd_reduces_exists
      ⟨pn, u, vs, Except.ok pm0, Except.ok (some pid), cr,
        Except.ok (cu, slug), Except.error e, pr, im⟩
      pm0 name pid hv rfl hname rfl
    rw [heq]
    simp [importAfterCreate, terminateCount_append,
      terminateCount_runValidatorsPure, terminateCount]
  · intro env msg hv
    rcases project_import_cmd_shape env with ⟨msg', hv', heq⟩ | ⟨hv', -⟩
    · rw [heq]
      exact terminateCount_runValidatorsPure 0 env.validators
    · rw [hv] at hv'
      exact Option.noConfusion hv'
  · intro env c s t hcr hv ht hd
    simp [project_export_cmd, hcr, hv, ht, hd, terminateCount_append,
      terminateCount_runValidatorsPure, terminateCount]
  · intro env c s t e hcr hv ht
    simp [project_export_cmd, hcr, hv, ht, terminateCount_append,
      terminateCount_runValidatorsPure, terminateCount]

/-- Witness for C10: the check uses the metadata name, and a document
without `"name"` aborts before any check. -/
theorem C10_check_keyed_on_metadata_name_witness :
    Event.checkExist "proj" ∈ (project_import_cmd sampleImportEnv).trace ∧
    project_import_cmd { sampleImportEnv with
        metadataResult := Except.ok [("team_name", "teamA")] } =
      ⟨[], Outcome.exited "KeyError: name"⟩ := by
  refine ⟨((C10_check_keyed_on_metadata_name sampleImportEnv [("name", "proj")]
    rfl rfl).1 "proj" (by decide)).1, ?_⟩
  exact (((C10_check_keyed_on_metadata_name { sampleImportEnv with
      metadataResult := Except.ok [("team_name", "teamA")] }
    [("team_name", "teamA")] rfl rfl).2 (by decide))).1

/-- Witness for C9 at metadata with and without a team name. -/
theorem C9_team_name_username_witness :
    Event.constructImporter "teamA" ∈ (project_import_cmd { sampleImportEnv with
      metadataResult :=
        Except.ok [("name", "proj"), ("team_name", "teamA")] }).trace ∧
    Event.constructImporter "alice" ∈ (project_import_cmd sampleImportEnv).trace := by
  constructor
  · exact (C9_team_name_username { sampleImportEnv with
        metadataResult := Except.ok [("name", "proj"), ("team_name", "teamA")] }
      [("name", "proj"), ("team_name", "teamA")] "proj" "id1" ("alice", "proj")
      rfl rfl (by decide) rfl rfl).1 "teamA" (by decide)
  · exact (C9_team_name_username sampleImportEnv [("name", "proj")] "proj" "id1"
      ("alice", "proj") rfl rfl (by decide) rfl rfl).2 (by decide)

/-- Witness for C5 at the concrete already-exists environment: creation
skipped, warning emitted, transfer performed, and a pre-existing
destination setting survives both the spec-modelled re-import step and the
whole run, while a missing key is added from the source. -/
theorem C5_existing_project_not_recreated_witness :
    Event.createProject [("name", "proj")] ∉
      (project_import_cmd sampleImportEnv).trace ∧
    Event.warnExists "proj" ∈ (project_import_cmd sampleImportEnv).trace ∧
    Event.transfer ∈ (project_import_cmd sampleImportEnv).trace ∧
    Metadata.find (import_metadata_effect [("k", "old")]
      [("k", "new"), ("j", "x")]) "k" = some "old" ∧
    Metadata.find (import_metadata_effect [("k", "old")]
      [("k", "new"), ("j", "x")]) "j" = some "x" ∧
    (∃ d', destSettingsAfter [("a", "b")] (some [("k", "old")])
        (project_import_cmd sampleImportEnv).trace = some d' ∧
      Metadata.find d' "k" = some "old") := by
  have h := C5_existing_project_not_recreated sampleImportEnv [("name", "proj")]
    "proj" "id1" rfl rfl (by decide) rfl
  refine ⟨h.1 [("name", "proj")], h.2.1, h.2.2.1 ("alice", "proj") rfl,
    h.2.2.2.1 [("k", "old")] [("k", "new"), ("j", "x")] "k" "old" (by decide),
    ?_,
    h.2.2.2.2.2 [("a", "b")] [("k", "old")] "k" "old" (by decide)
      (Or.inl (by decide))⟩
  exact (h.2.2.2.2.1 [("k", "old")] [("k", "new"), ("j", "x")] "j"
    (by decide)).trans (by decide)

/-- Witness for C4: the patch follows transfer and terminate on a marker
run, and never happens on a marker-free run. -/
theorem C4_legacy_engine_patch_witness :
    (∃ l1 l2, (project_import_cmd { sampleImportEnv with
        metadataResult := Except.ok
          [("name", "proj"), ("default_project_engine_type", "1")],
        checkExistResult := Except.ok none }).trace =
      l1 ++ Event.patchEngine legacyPatch :: l2 ∧
      Event.transfer ∈ l1 ∧ Event.terminate ∈ l1) ∧
    Event.patchEngine legacyPatch ∉ (project_import_cmd sampleImportEnv).trace := by
  have h := C4_legacy_engine_patch { sampleImportEnv with
      metadataResult := Except.ok
        [("name", "proj"), ("default_project_engine_type", "1")],
      checkExistResult := Except.ok none }
    [("name", "proj"), ("default_project_engine_type", "1")] "proj" "newid"
    ("alice", "proj") rfl rfl (by decide) rfl rfl rfl rfl rfl rfl
  exact ⟨(h.2.1 (by decide)).2,
    h.2.2.2 sampleImportEnv [("name", "proj")] rfl (by decide) legacyPatch⟩

/-- Witness for the amended C1 at concrete environments for each case. -/
theorem C1_amended_witness :
    terminateCount (project_import_cmd
      ⟨"p", "u", [], Except.ok [("name", "proj")], Except.ok (some "id"),
        Except.ok "x", Except.ok ("u", "s"), Except.ok (), Except.ok (),
        Except.error "boom"⟩).trace = 2 ∧
    terminateCount (project_import_cmd
      ⟨"p", "u", [], Except.ok
          [("name", "proj"), ("default_project_engine_type", "1")],
        Except.ok (some "id"), Except.ok "x", Except.ok ("u", "s"),
        Except.ok (), Except.error "boom", Except.ok ()⟩).trace = 2 ∧
    terminateCount (project_import_cmd
      ⟨"p", "u", [], Except.ok [("name", "proj")], Except.ok (some "id"),
        Except.ok "x", Except.ok ("u", "s"), Except.ok (), Except.ok (),
        Except.ok ()⟩).trace = 1 ∧
    terminateCount (project_import_cmd
      ⟨"p", "u", [], Except.ok [("name", "proj")], Except.ok (some "id"),
        Except.ok "x", Except.ok ("u", "s"), Except.error "boom",
        Except.ok (), Except.ok ()⟩).trace = 1 ∧
    terminateCount (project_import_cmd { sampleImportEnv with
      validators := [⟨ValidationResponseStatus.FAILED, "bad"⟩] }).trace = 0 ∧
    terminateCount (project_export_cmd sampleExportEnv).trace = 0 ∧
    terminateCount (project_export_cmd { sampleExportEnv with
      transferResult := Except.error "boom" }).trace = 1 := by
  refine ⟨?_, ?_, ?_, ?_, ?_, ?_, ?_⟩
  · exact C1_amended.1 "p" "u" [] [("name", "proj")] "proj" "id" "u" "s"
      "boom" (Except.ok "x") rfl (by decide)
  · exact C1_amended.2.1 "p" "u" []
      [("name", "proj"), ("default_project_engine_type", "1")] "proj" "id"
      "u" "s" "boom" (Except.ok "x") (Except.ok ()) rfl (by decide) (by decide)
  · exact C1_amended.2.2.1 "p" "u" [] [("name", "proj")] "proj" "id" "u" "s"
      (Except.ok "x") rfl (by decide)
  · exact C1_amended.2.2.2.1 "p" "u" [] [("name", "proj")] "proj" "id" "u"
      "s" "boom" (Except.ok "x") (Except.ok ()) (Except.ok ()) rfl (by decide)
  · exact C1_amended.2.2.2.2.1 { sampleImportEnv with
      validators := [⟨ValidationResponseStatus.FAILED, "bad"⟩] } "bad" rfl
  · exact C1_amended.2.2.2.2.2.1 sampleExportEnv "alice" "proj" "user"
      rfl rfl rfl rfl
  · exact C1_amended.2.2.2.2.2.2 { sampleExportEnv with
      transferResult := Except.error "boom" } "alice" "proj" "user" "boom"
      rfl rfl rfl
